import Mathlib

/-
Verification development for the REE transaction builder
(src/lib/transaction.ts of the ree-client-ts-sdk repository).

The TypeScript builder is shallowly embedded: every definition below is a
direct translation of the corresponding source function.  Machine
integers do not occur in the source (all amounts are TS `bigint`), so
amounts are modelled as `Int`.  JavaScript objects used as string-keyed
maps are modelled as association lists preserving insertion order, which
matches `Object.entries` iteration order for the keys that occur here
(addresses and coin ids such as "0:0" are never array-index-like keys).
External collaborators (the orchestrator fee estimator, the UTXO indexer
fetchers, and the address classifier) are parameters of the embedding,
exactly as the spec declares them out of scope.
-/

namespace Ree

/-- Rune balance entry carried by a UTXO (types/utxo.ts `runes` items).
The TS amount is a decimal string converted with `BigInt()` at every use
site; it is modelled directly as the integer it denotes. -/
structure RuneBalance where
  id : String
  amount : Int
deriving Repr, DecidableEq

/-- UTXO (types/utxo.ts).  `satoshis` is a decimal string in TS, converted
with `BigInt()` at every use site; modelled as the integer it denotes.
`scriptPk` and `height` never influence the builder logic modelled here
(the script only flows opaquely into the PSBT input) and are omitted. -/
structure Utxo where
  txid : String
  vout : Nat
  satoshis : Int
  runes : List RuneBalance
  address : String
deriving Repr, DecidableEq

/-- AddressType (types/address.ts): script-type tag used only for fee/size
accounting.  OpReturn carries the payload byte length. -/
inductive AddressType where
  | P2PKH | P2SH_P2WPKH | P2WPKH | P2WSH | P2SH | P2TR | UNKNOWN
  | OpReturn (len : Int)
deriving Repr, DecidableEq

/-- UTXO_DUST from constants/index.ts. -/
def UTXO_DUST : Int := 546

/-- BITCOIN_ID from constants/index.ts. -/
def BITCOIN_ID : String := "0:0"

/-- CoinBalance (types/transaction.ts). -/
structure CoinBalance where
  id : String
  value : Int
deriving Repr, DecidableEq

/-- InputCoin (types/transaction.ts); the TS field `from` is a Lean keyword
and is rendered `fromAddr`. -/
structure InputCoin where
  coin : CoinBalance
  fromAddr : String
deriving Repr, DecidableEq

/-- OutputCoin (types/transaction.ts); the TS field `to` is a Lean keyword
and is rendered `toAddr`. -/
structure OutputCoin where
  coin : CoinBalance
  toAddr : String
deriving Repr, DecidableEq

/-- Intention (types/transaction.ts).  `action`, `actionParams`,
`exchangeId` and `nonce` are opaque pass-through values never read by
`build()` and are omitted from the embedding. -/
structure Intention where
  poolAddress : String
  inputCoins : List InputCoin
  outputCoins : List OutputCoin
  poolUtxos : Option (List Utxo)
deriving Repr, DecidableEq

/-- The part of TransactionConfig read by the builder, together with the
external address classifier `getAddressType` (utils/address.ts), which the
spec treats as an external collaborator. -/
structure Ctx where
  address : String
  paymentAddress : String
  mergeSelfRuneBtcOutputs : Bool
  getAddressType : String → AddressType

/-- Edict of the Runestone (runelib).  The source builds
`new RuneId(Number(s.split(":")[0]), Number(s.split(":")[1]))` from the
coin-id string; the embedding keeps the (canonical) string itself, which
determines the RuneId. -/
structure Edict where
  runeId : String
  amount : Int
  output : Nat
deriving Repr, DecidableEq

/-- A PSBT input as added by `psbt.data.addInput` (hash, index,
witnessUtxo.value). -/
structure PsbtInput where
  txid : String
  vout : Nat
  value : Int
deriving Repr, DecidableEq

/-- A PSBT output: either a standard address output or the zero-valued
OP_RETURN script output carrying the Runestone edicts. -/
inductive PsbtOutput where
  | addr (address : String) (value : Int)
  | script (edicts : List Edict)
deriving Repr, DecidableEq

/-- Errors thrown by the builder, one constructor per `throw new Error`
site in src/lib/transaction.ts.  `fuelExhausted` is an artifact of the
fuel encoding of the fee loop; it is proved unreachable for the fuel the
embedding uses. -/
inductive Err where
  | insufficientRune
  | insufficientBtc (need got : Int)
  | insufficientBtcEmptySelection
  | insufficientUtxoFinal
  | noIntentions
  | fuelExhausted
deriving Repr, DecidableEq

/-- String-keyed JS object in insertion order (used for
`Record<string, T>` values iterated with `Object.entries`). -/
abbrev Rec (α : Type) := List (String × α)

namespace Rec

/-- Lookup `obj[k]`. -/
def get? {α : Type} : Rec α → String → Option α
  | [], _ => none
  | (k, v) :: rest, key => if k = key then some v else get? rest key

/-- Assignment `obj[k] = v`: replaces in place if the key exists, appends
otherwise (JS insertion-order semantics). -/
def set {α : Type} : Rec α → String → α → Rec α
  | [], key, v => [(key, v)]
  | (k, w) :: rest, key, v =>
    if k = key then (k, v) :: rest else (k, w) :: set rest key v

/-- In-place update of an existing key (`obj[k].field = ...` style
mutation of the object stored at `k`). -/
def update {α : Type} : Rec α → String → (α → α) → Rec α
  | [], _, _ => []
  | (k, v) :: rest, key, f =>
    if k = key then (k, f v) :: rest else (k, v) :: update rest key f

/-- Deletion `delete obj[k]`. -/
def del {α : Type} : Rec α → String → Rec α
  | [], _ => []
  | (k, v) :: rest, key => if k = key then rest else (k, v) :: del rest key

/-- Keys in insertion order. -/
def keys {α : Type} (r : Rec α) : List String := r.map Prod.fst

end Rec

/-- Nested map `Record<string, Record<string, bigint>>` used for the
per-address per-coin amounts. -/
abbrev NRec := Rec (Rec Int)

/-- `m[a] ??= {}; m[a][k] = (m[a][k] ?? 0n) + d` — the ubiquitous
accumulate-into-nested-record pattern of the source. -/
def bump (m : NRec) (a k : String) (d : Int) : NRec :=
  let inner := (m.get? a).getD []
  m.set a (inner.set k ((inner.get? k).getD 0 + d))

/-- Builder state: the fields of the `Transaction` class mutated during
`build()` (the PSBT, the parallel address-type lists, the dust counters,
the tracked input UTXOs and the final fee). -/
structure TxState where
  psbtInputs : List PsbtInput
  psbtOutputs : List PsbtOutput
  inputAddressTypes : List AddressType
  outputAddressTypes : List AddressType
  userInputUtxoDusts : Int
  txFee : Int
  additionalDustNeeded : Int
  inputUtxos : List Utxo
deriving Repr, DecidableEq

/-- Fresh builder state (constructor of `Transaction`). -/
def TxState.init : TxState :=
  { psbtInputs := [], psbtOutputs := [], inputAddressTypes := [],
    outputAddressTypes := [], userInputUtxoDusts := 0, txFee := 0,
    additionalDustNeeded := 0, inputUtxos := [] }

/-- `Transaction.addInput` (transaction.ts lines 80–112): ignores a UTXO
whose (txid, vout) outpoint is already tracked; otherwise appends the PSBT
input, the input address type, the tracked UTXO, and accumulates the
user-dust counter for rune-bearing UTXOs owned by the user's addresses. -/
def addInput (ctx : Ctx) (st : TxState) (utxo : Utxo) : TxState :=
  if st.inputUtxos.any (fun i => i.txid = utxo.txid ∧ i.vout = utxo.vout) then st
  else
    { st with
      psbtInputs := st.psbtInputs ++ [⟨utxo.txid, utxo.vout, utxo.satoshis⟩]
      inputAddressTypes := st.inputAddressTypes ++ [ctx.getAddressType utxo.address]
      inputUtxos := st.inputUtxos ++ [utxo]
      userInputUtxoDusts := st.userInputUtxoDusts +
        (if (utxo.address = ctx.address ∨ utxo.address = ctx.paymentAddress) ∧
            utxo.runes ≠ [] then utxo.satoshis else 0) }

/-- `Transaction.addOutput` (lines 119–125). -/
def addOutput (ctx : Ctx) (st : TxState) (address : String) (amount : Int) : TxState :=
  { st with
    psbtOutputs := st.psbtOutputs ++ [.addr address amount]
    outputAddressTypes := st.outputAddressTypes ++ [ctx.getAddressType address] }

/-- `Transaction.addScriptOutput` (lines 131–138): zero-valued OP_RETURN
output carrying the Runestone; the type list records an OpReturn tag with
the script byte length (opaque here, recorded as the edict count). -/
def addScriptOutput (st : TxState) (edicts : List Edict) : TxState :=
  { st with
    psbtOutputs := st.psbtOutputs ++ [.script edicts]
    outputAddressTypes := st.outputAddressTypes ++ [.OpReturn (edicts.length)] }

/-- First pass of `selectRuneUtxos` (lines 158–167): find the first UTXO
with a nonempty rune list whose (first) balance entry for `runeId` equals
`runeAmount` exactly. -/
def findExactRune : List Utxo → String → Int → Option Utxo
  | [], _, _ => none
  | v :: rest, runeId, runeAmount =>
    if v.runes ≠ [] then
      match v.runes.find? (fun r => r.id = runeId) with
      | some b => if b.amount = runeAmount then some v else findExactRune rest runeId runeAmount
      | none => findExactRune rest runeId runeAmount
    else findExactRune rest runeId runeAmount

/-- Sum of the amounts of every rune entry of `v` matching `runeId`
(the `v.runes.forEach` accumulation of lines 173–177). -/
def runeSumIn (v : Utxo) (runeId : String) : Int :=
  (v.runes.filter (fun r => r.id = runeId)).foldl (fun t r => t + r.amount) 0

/-- Second pass of `selectRuneUtxos` (lines 170–187): accumulate UTXOs in
order (each pushed regardless of contribution) until the running total of
matching rune amounts reaches the target; throw INSUFFICIENT_RUNE_UTXOs
when the list is exhausted below the target. -/
def collectRune (runeId : String) (runeAmount : Int) :
    List Utxo → Int → List Utxo → Except Err (List Utxo)
  | [], total, acc =>
    if total < runeAmount then .error .insufficientRune else .ok acc.reverse
  | v :: rest, total, acc =>
    let total2 := total + runeSumIn v runeId
    let acc2 := v :: acc
    if total2 ≥ runeAmount then .ok acc2.reverse
    else collectRune runeId runeAmount rest total2 acc2

/-- `Transaction.selectRuneUtxos` (lines 147–190). -/
def selectRuneUtxos (runeUtxos : List Utxo) (runeId : String) (runeAmount : Int) :
    Except Err (List Utxo) :=
  if runeAmount = 0 then .ok []
  else
    match findExactRune runeUtxos runeId runeAmount with
    | some v => .ok [v]
    | none => collectRune runeId runeAmount runeUtxos 0 []

/-- Loop of `selectBtcUtxos` (lines 211–227): skip rune-bearing UTXOs
unless selecting from a pool address, accumulate satoshi values, stop as
soon as the accumulated total reaches the target; throw the
need/have-carrying insufficiency error when exhausted below the target. -/
def collectBtc (btcAmount : Int) (isPoolAddress : Bool) :
    List Utxo → Int → List Utxo → Except Err (List Utxo)
  | [], total, acc =>
    if total < btcAmount then .error (.insufficientBtc btcAmount total)
    else .ok acc.reverse
  | u :: rest, total, acc =>
    if u.runes ≠ [] ∧ ¬isPoolAddress then collectBtc btcAmount isPoolAddress rest total acc
    else
      let total2 := total + u.satoshis
      let acc2 := u :: acc
      if total2 ≥ btcAmount then .ok acc2.reverse
      else collectBtc btcAmount isPoolAddress rest total2 acc2

/-- `Transaction.selectBtcUtxos` (lines 198–230). -/
def selectBtcUtxos (btcUtxos : List Utxo) (btcAmount : Int)
    (isPoolAddress : Bool) : Except Err (List Utxo) :=
  if btcAmount ≤ 0 then .ok []
  else collectBtc btcAmount isPoolAddress btcUtxos 0 []

/-- Total satoshi value of a list of UTXOs (the `reduce` accumulations of
the source). -/
def sumSats (l : List Utxo) : Int := l.foldl (fun t u => t + u.satoshis) 0

end Ree

namespace Ree

/-- An entry of the `needMap` of `getInvolvedAddressUtxos` (lines 375–378):
whether an address needs BTC UTXOs and which rune ids it needs.  The TS
`Set<string>` is modelled as an insertion-ordered duplicate-free list. -/
structure NeedEntry where
  needBtc : Bool
  runeIds : List String
deriving Repr, DecidableEq

/-- `Set.add` on the insertion-ordered rune-id list. -/
def addRuneIdNeed (l : List String) (rid : String) : List String :=
  if l.contains rid then l else l ++ [rid]

/-- JS `String.prototype.trim` (used by the `ensure` helper on addresses),
written structurally over the character list so it computes inside
proofs. -/
def jsTrim (s : String) : String :=
  ⟨((s.data.dropWhile Char.isWhitespace).reverse.dropWhile Char.isWhitespace).reverse⟩

/-- The `ensure` helper (lines 388–394): insert a default entry for the
trimmed address if absent. -/
def ensureKey (m : Rec NeedEntry) (k : String) : Rec NeedEntry :=
  if (m.get? k).isSome then m else m ++ [(k, ⟨false, []⟩)]

/-- `ensure(addr)` followed by a mutation of the returned entry. -/
def needTouch (m : Rec NeedEntry) (addr : String) (f : NeedEntry → NeedEntry) :
    Rec NeedEntry :=
  let k := jsTrim addr
  (ensureKey m k).update k f

/-- Record that an address needs the given coin: BTC flag for the native
coin, rune-id set insertion otherwise. -/
def needEntryAdd (n : NeedEntry) (coinId : String) : NeedEntry :=
  if coinId = BITCOIN_ID then { n with needBtc := true }
  else { n with runeIds := addRuneIdNeed n.runeIds coinId }

/-- The `needMap` construction of `getInvolvedAddressUtxos`
(lines 375–427): the payment address always needs BTC; every inputCoin
`from`, every outputCoin `to`, and the pool address of each intention get
the coins they touch recorded. -/
def needMapOf (ctx : Ctx) (intentions : List Intention) : Rec NeedEntry :=
  let m0 : Rec NeedEntry := [(ctx.paymentAddress, ⟨true, []⟩)]
  intentions.foldl (fun m it =>
    let m := it.inputCoins.foldl
      (fun m ic => needTouch m ic.fromAddr (fun n => needEntryAdd n ic.coin.id)) m
    let m := it.outputCoins.foldl
      (fun m oc => needTouch m oc.toAddr (fun n => needEntryAdd n oc.coin.id)) m
    let m := ensureKey m (jsTrim it.poolAddress)
    let allCoins := it.inputCoins.map (fun c => c.coin.id) ++
      it.outputCoins.map (fun c => c.coin.id)
    allCoins.foldl (fun m cid => needTouch m it.poolAddress (fun n => needEntryAdd n cid)) m)
    m0

/-- The two UTXO maps returned by `getInvolvedAddressUtxos`. -/
structure AddressUtxos where
  btc : Rec (List Utxo)
  rune : Rec (Rec (List Utxo))
deriving Repr, DecidableEq

/-- The per-address try/catch of the fetch loop (lines 432–439, 444–452):
a failed fetch degrades to the empty list. -/
def catchList (r : Except Unit (List Utxo)) : List Utxo :=
  match r with
  | .ok l => l
  | .error _ => []

/-- One address of the fetch loop of `getInvolvedAddressUtxos`
(lines 430–456): fetch BTC UTXOs if needed (pool addresses keep their
metaprotocol UTXOs via the second fetcher argument), and fetch the rune
UTXOs of every needed rune id, each fetch degrading to the empty list on
failure. -/
def fetchStep (fetchBtc : String → Bool → Except Unit (List Utxo))
    (fetchRune : String → String → Except Unit (List Utxo))
    (poolAddresses : List String) (au : AddressUtxos) (e : String × NeedEntry) :
    AddressUtxos :=
  let address := e.1
  let need := e.2
  let au :=
    if need.needBtc then
      { au with btc := (Rec.set au.btc address
          (catchList (fetchBtc address (!(poolAddresses.contains address))))) }
    else au
  if need.runeIds ≠ [] then
    { au with rune := (Rec.set au.rune address
        (need.runeIds.foldl
          (fun (rm : Rec (List Utxo)) rid =>
            Rec.set rm rid (catchList (fetchRune address rid))) [])) }
  else au

/-- The fetch loop of `getInvolvedAddressUtxos` (lines 429–457).  The TS
fetches run concurrently but write disjoint keys, so the resulting map
contents are iteration-order independent; the embedding performs them in
needMap insertion order. -/
def fetchPhase (fetchBtc : String → Bool → Except Unit (List Utxo))
    (fetchRune : String → String → Except Unit (List Utxo))
    (poolAddresses : List String) (entries : Rec NeedEntry) : AddressUtxos :=
  entries.foldl (fetchStep fetchBtc fetchRune poolAddresses) ⟨[], []⟩

/-- `Transaction.getInvolvedAddressUtxos` (lines 368–460). -/
def getInvolvedAddressUtxos (ctx : Ctx) (intentions : List Intention)
    (fetchBtc : String → Bool → Except Unit (List Utxo))
    (fetchRune : String → String → Except Unit (List Utxo)) : AddressUtxos :=
  fetchPhase fetchBtc fetchRune (intentions.map (fun i => i.poolAddress))
    (needMapOf ctx intentions)

/-- The pool-UTXO reset at the top of `build()` (lines 883–892): when an
intention supplies `poolUtxos`, they replace the fetched BTC UTXOs of the
pool and its rune map is rebuilt from their rune balances. -/
def resetPoolUtxos (au : AddressUtxos) (intentions : List Intention) : AddressUtxos :=
  intentions.foldl (fun au it =>
    match it.poolUtxos with
    | none => au
    | some pu =>
      let runeMap := pu.foldl (fun (rm : Rec (List Utxo)) utxo =>
          utxo.runes.foldl
            (fun (rm : Rec (List Utxo)) r =>
              Rec.set rm r.id ((Rec.get? rm r.id).getD [] ++ [utxo])) rm)
        ([] : Rec (List Utxo))
      { btc := Rec.set au.btc it.poolAddress pu
        rune := Rec.set au.rune it.poolAddress runeMap })
    au

/-- The per-intention clone symmetrization of
`addInputsAndCalculateOutputs` (lines 505–533): pool-sourced inputCoins
are filtered out; a coin sent to the pool with no output entry of the same
id gets an output-to-pool entry; a coin of outputCoinsClone with no entry
of the same id in the original inputCoins gets an input-from-pool entry. -/
def symCoins (poolAddresses : List String) (it : Intention) :
    List InputCoin × List OutputCoin :=
  let inputCoinsClone := it.inputCoins.filter (fun ic => !(poolAddresses.contains ic.fromAddr))
  let outputCoinsClone := inputCoinsClone.foldl (fun oc ic =>
      if (it.outputCoins.find? (fun c => c.coin.id = ic.coin.id)).isNone ∧
         ¬(poolAddresses.contains ic.fromAddr ∧ ic.fromAddr ≠ it.poolAddress)
      then oc ++ [⟨ic.coin, it.poolAddress⟩] else oc)
    it.outputCoins
  let inputCoinsClone2 := outputCoinsClone.foldl (fun icl oc =>
      if (it.inputCoins.find? (fun c => c.coin.id = oc.coin.id)).isNone
      then icl ++ [⟨oc.coin, it.poolAddress⟩] else icl)
    inputCoinsClone
  (inputCoinsClone2, outputCoinsClone)

/-- Accumulator of the per-intention ledger pass: the aggregated
per-address input/output coin amounts, the passthrough pool UTXO map, and
the set of passthrough pools. -/
structure LedgerAcc where
  inAmts : NRec
  outAmts : NRec
  passUtxos : Rec (List Utxo)
  passPools : List String
deriving Repr, DecidableEq

/-- The intentions.forEach of `addInputsAndCalculateOutputs`
(lines 505–563): symmetrize the coin lists; an intention with both clones
empty but supplied pool UTXOs is recorded as a passthrough; otherwise the
clones are aggregated into the per-address amount maps. -/
def ledgerStep (poolAddresses : List String) (acc : LedgerAcc) (it : Intention) :
    LedgerAcc :=
  let pair := symCoins poolAddresses it
  let inputCoinsClone := pair.1
  let outputCoinsClone := pair.2
  if inputCoinsClone = [] ∧ outputCoinsClone = [] ∧ (it.poolUtxos.getD []) ≠ [] then
    { acc with
      passUtxos := acc.passUtxos.set it.poolAddress
        ((acc.passUtxos.get? it.poolAddress).getD [] ++ (it.poolUtxos.getD []))
      passPools := if acc.passPools.contains it.poolAddress then acc.passPools
        else acc.passPools ++ [it.poolAddress] }
  else
    { acc with
      inAmts := inputCoinsClone.foldl
        (fun m ic => bump m ic.fromAddr ic.coin.id ic.coin.value) acc.inAmts
      outAmts := outputCoinsClone.foldl
        (fun m oc => bump m oc.toAddr oc.coin.id oc.coin.value) acc.outAmts }

/-- The passthrough-pool loop (lines 565–580): consume each recorded pool
UTXO as an input and credit its satoshis and rune balances back to the
same pool. -/
def processPassUtxos (ctx : Ctx) (st : TxState) (outAmts : NRec)
    (passUtxos : Rec (List Utxo)) : TxState × NRec :=
  passUtxos.foldl (fun p e =>
    if e.2 = [] then p
    else
      e.2.foldl (fun (p : TxState × NRec) utxo =>
        let st := addInput ctx p.1 utxo
        let outAmts := bump p.2 e.1 BITCOIN_ID utxo.satoshis
        let outAmts := utxo.runes.foldl (fun m r => bump m e.1 r.id r.amount) outAmts
        (st, outAmts)) p)
    (st, outAmts)

/-- One (address, coinId, requiredAmount) step of the selection loop
(lines 583–669): the payment address's BTC debit is deferred as a negative
output amount; other BTC debits select BTC UTXOs (crediting change, and
for pools also the rune balances of the selected UTXOs); rune debits
select rune UTXOs (pools are debited the required amount, other addresses
are credited the change). -/
def selectionStep (ctx : Ctx) (poolAddresses : List String) (au : AddressUtxos)
    (address coinId : String) (requiredAmount : Int) (st : TxState)
    (outAmts : NRec) : Except Err (TxState × NRec) :=
  if coinId = BITCOIN_ID then
    if address = ctx.paymentAddress then
      .ok (st, bump outAmts address coinId (-requiredAmount))
    else
      match selectBtcUtxos ((au.btc.get? address).getD []) requiredAmount
          (poolAddresses.contains address) with
      | .error e => .error e
      | .ok selectedUtxos =>
        let totalInputAmount := sumSats selectedUtxos
        let changeAmount := totalInputAmount - requiredAmount
        let outAmts := if changeAmount > 0 then bump outAmts address coinId changeAmount
          else outAmts
        .ok (selectedUtxos.foldl (fun (p : TxState × NRec) utxo =>
          let st := addInput ctx p.1 utxo
          let outAmts := if poolAddresses.contains address then
              utxo.runes.foldl (fun m r => bump m address r.id r.amount) p.2
            else p.2
          (st, outAmts)) (st, outAmts))
  else
    match selectRuneUtxos (((au.rune.get? address).bind (fun rm => rm.get? coinId)).getD [])
        coinId requiredAmount with
    | .error e => .error e
    | .ok selectedUtxos =>
      let totalInputRuneAmount := selectedUtxos.foldl (fun t utxo =>
          t + (match utxo.runes.find? (fun r => r.id = coinId) with
               | some b => b.amount
               | none => 0)) 0
      let changeAmount := totalInputRuneAmount - requiredAmount
      let outAmts :=
        if poolAddresses.contains address then bump outAmts address coinId (-requiredAmount)
        else if changeAmount > 0 then bump outAmts address coinId changeAmount
        else outAmts
      .ok (selectedUtxos.foldl (addInput ctx) st, outAmts)

/-- Error-propagating left fold (the selection loops abort the whole
build on the first selector failure). -/
def foldE {α β : Type} (f : β → α → Except Err β) : List α → β → Except Err β
  | [], b => .ok b
  | a :: rest, b =>
    match f b a with
    | .error e => .error e
    | .ok b2 => foldE f rest b2

/-- One coin of the trailing consume-all-pool-UTXOs loop (lines 684–726):
credit the pool with the full BTC value (plus carried rune balances) of
all its BTC UTXOs, or the full matching rune balance of all its rune
UTXOs, adding every one of them as an input. -/
def poolFallbackCoin (ctx : Ctx) (au : AddressUtxos) (address : String)
    (p : TxState × NRec) (coinId : String) : TxState × NRec :=
  if coinId = BITCOIN_ID then
    let btcUtxos := (au.btc.get? address).getD []
    let totalInputAmount := sumSats btcUtxos
    let outAmts := bump p.2 address coinId totalInputAmount
    btcUtxos.foldl (fun (p : TxState × NRec) utxo =>
      let st := addInput ctx p.1 utxo
      let outAmts := utxo.runes.foldl (fun m r => bump m address r.id r.amount) p.2
      (st, outAmts)) (p.1, outAmts)
  else
    let runeUtxos := (((au.rune.get? address).bind (fun rm => rm.get? coinId))).getD []
    let totalInputRuneAmount := runeUtxos.foldl (fun t utxo =>
        t + (match utxo.runes.find? (fun r => r.id = coinId) with
             | some b => b.amount
             | none => 0)) 0
    (runeUtxos.foldl (addInput ctx) p.1, bump p.2 address coinId totalInputRuneAmount)

/-- `Transaction.addInputsAndCalculateOutputs` (lines 490–730). -/
def addInputsAndCalculateOutputs (ctx : Ctx) (intentions : List Intention)
    (au : AddressUtxos) (st : TxState) : Except Err (TxState × NRec) :=
  if intentions = [] then .error .noIntentions
  else
    let poolAddresses := intentions.map (fun i => i.poolAddress)
    let acc := intentions.foldl (ledgerStep poolAddresses) ⟨[], [], [], []⟩
    let p0 := processPassUtxos ctx st acc.outAmts acc.passUtxos
    match foldE (fun p (e : String × Rec Int) =>
        foldE (fun p (c : String × Int) =>
          selectionStep ctx poolAddresses au e.1 c.1 c.2 p.1 p.2) e.2 p)
        acc.inAmts p0 with
    | .error e => .error e
    | .ok p1 =>
      let outerKeys := p1.2.keys
      .ok (outerKeys.foldl (fun (p : TxState × NRec) address =>
        if (acc.inAmts.get? address).isSome ∨ ¬poolAddresses.contains address ∨
           acc.passPools.contains address then p
        else
          let innerKeys := ((p.2.get? address).getD []).keys
          innerKeys.foldl (poolFallbackCoin ctx au address) p) p1)

/-- The distinct rune ids with an entry anywhere in the receive map
(lines 756–765), in first-occurrence order (TS `Set` insertion order). -/
def runeIdsOf (m : NRec) : List String :=
  m.foldl (fun ids e => e.2.foldl (fun (ids : List String) c =>
    if c.1 ≠ BITCOIN_ID ∧ ¬ids.contains c.1 then ids ++ [c.1] else ids) ids) []

/-- The edict-building double loop (lines 772–791): for each rune id, one
edict per address with positive credit, output indices starting at 1. -/
def buildEdicts (m : NRec) (runeIds : List String) : List Edict × List String :=
  let res := runeIds.foldl (fun (p : List Edict × List String × Nat) rid =>
    m.foldl (fun (p : List Edict × List String × Nat) e =>
      let runeAmount := (e.2.get? rid).getD 0
      if runeAmount > 0 then
        (p.1 ++ [⟨rid, runeAmount, p.2.2⟩], p.2.1 ++ [e.1], p.2.2 + 1)
      else p) p)
    ([], [], 1)
  (res.1, res.2.1)

/-- The rune-recipient output loop (lines 798–816): each edict target gets
a standard output, valued at its positive BTC credit when usable (then
removed from the map) or at UTXO_DUST (then counted into
additionalDustNeeded). -/
def carrierStep (ctx : Ctx) (p : TxState × NRec) (address : String) : TxState × NRec :=
  let btcAmount := (((Rec.get? p.2 address).bind (fun cm => Rec.get? cm BITCOIN_ID))).getD 0
  let isSelfAddress := address = ctx.address
  let shouldUseBtcAmount := btcAmount > 0 ∧ (¬isSelfAddress ∨ ctx.mergeSelfRuneBtcOutputs)
  let outputAmount := if shouldUseBtcAmount then btcAmount else UTXO_DUST
  let st := addOutput ctx p.1 address outputAmount
  if shouldUseBtcAmount then (st, Rec.update p.2 address (fun cm => Rec.del cm BITCOIN_ID))
  else ({ st with additionalDustNeeded := st.additionalDustNeeded + UTXO_DUST }, p.2)

/-- The rune-recipient output loop (lines 798–816), one `carrierStep` per
edict target address. -/
def emitRuneCarriers (ctx : Ctx) (targets : List String) (st : TxState)
    (m : NRec) : TxState × NRec :=
  targets.foldl (carrierStep ctx) (st, m)

/-- One entry of the remaining BTC-only output loop (lines 820–827): emit
a standard output for a positive BTC amount. -/
def remainingStep (ctx : Ctx) (st : TxState) (e : String × Rec Int) : TxState :=
  let btcAmount := (Rec.get? e.2 BITCOIN_ID).getD 0
  if btcAmount > 0 then addOutput ctx st e.1 btcAmount else st

/-- The remaining BTC-only output loop (lines 820–827). -/
def emitRemainingBtc (ctx : Ctx) (st : TxState) (m : NRec) : TxState :=
  m.foldl (remainingStep ctx) st

/-- `Transaction.addOutputs` (lines 749–828); returns the builder state
together with the receive map as mutated by the credit deletions, which
`build()` reads afterwards. -/
def addOutputs (ctx : Ctx) (st : TxState) (m : NRec) : TxState × NRec :=
  let runeIds := runeIdsOf m
  let p :=
    if runeIds ≠ [] then
      let et := buildEdicts m runeIds
      emitRuneCarriers ctx et.2 (addScriptOutput st et.1) m
    else (st, m)
  (emitRemainingBtc ctx p.1 p.2, p.2)

end Ree

namespace Ree

/-- Candidates that the BTC selector may take: rune-free UTXOs, or any
UTXO when selecting from a pool address (spec 4.1 `allowRuneBearing`). -/
def eligibleList (l : List Utxo) (isPoolAddress : Bool) : List Utxo :=
  l.filter (fun u => u.runes.isEmpty || isPoolAddress)

/-- Specification-side greedy selection (spec 4.1 selectBtc): walk the
eligible candidates once in order and keep the minimal prefix whose
satoshi sum reaches the target. -/
def greedyTake (amt : Int) : List Utxo → List Utxo
  | [] => []
  | u :: rest => if amt ≤ u.satoshis then [u] else u :: greedyTake (amt - u.satoshis) rest

/-- Whether a UTXO's balance entry for `runeId` (the first matching rune
entry, as read by the source's `find`) equals `amt` exactly. -/
def isExactRuneMatch (v : Utxo) (runeId : String) (amt : Int) : Bool :=
  match v.runes.find? (fun r => r.id = runeId) with
  | some b => b.amount = amt
  | none => false

/-- The mutable locals of the fee-estimation loop of `addBtcAndFees`:
the builder state (whose address-type lists the loop speculatively
rewrites), the still-active change placeholder flag, the selected payment
UTXOs, the last computed target amount and the estimator call counter. -/
structure LoopSt where
  st : TxState
  changePlaceholderActive : Bool
  selected : List Utxo
  target : Int
  callIdx : Nat
deriving Repr, DecidableEq

/-- The do/while fee-convergence loop of `addBtcAndFees` (lines 259–314),
with the orchestrator's `estimate_min_tx_fee` responses abstracted as the
`oracle` parameter (call index, current input types, current output
types).  `A` abbreviates the loop-constant
`btcAmount + additionalDustNeeded − userInputUtxoDusts`, so each
iteration's target is `A + currentFee`.  The source loop is unbounded;
the embedding uses explicit fuel and a distinguished `fuelExhausted`
result, proved unreachable below for the fuel `addBtcAndFees` supplies. -/
def feeLoopGo (oracle : Nat → List AddressType → List AddressType → Int)
    (btcUtxos : List Utxo) (A : Int) (inputAddressTypesClone : List AddressType)
    (paymentAddressType : AddressType) :
    Nat → Int → LoopSt → Except Err (LoopSt × Int)
  | 0, _, _ => .error .fuelExhausted
  | fuel + 1, lastFee, ls =>
    let currentFee := oracle ls.callIdx ls.st.inputAddressTypes ls.st.outputAddressTypes
    let targetBtcAmount := A + currentFee
    if currentFee > lastFee ∧ targetBtcAmount > 0 then
      match selectBtcUtxos btcUtxos targetBtcAmount false with
      | .error e => .error e
      | .ok sel =>
        if sel = [] then .error .insufficientBtcEmptySelection
        else
          let st := { ls.st with
            inputAddressTypes := inputAddressTypesClone ++ sel.map (fun _ => paymentAddressType) }
          let totalBtcAmount := sumSats sel
          let next :=
            if ¬(totalBtcAmount - targetBtcAmount > 0 ∧
                 totalBtcAmount - targetBtcAmount > UTXO_DUST) then
              ({ st with outputAddressTypes := st.outputAddressTypes.dropLast }, false)
            else (st, ls.changePlaceholderActive)
          feeLoopGo oracle btcUtxos A inputAddressTypesClone paymentAddressType fuel currentFee
            { st := next.1, changePlaceholderActive := next.2, selected := sel,
              target := targetBtcAmount, callIdx := ls.callIdx + 1 }
    else
      .ok ({ ls with target := targetBtcAmount, callIdx := ls.callIdx + 1 }, currentFee)

/-- Fuel supplied to the loop encoding: one step per unit of headroom
between the total eligible candidate value and the loop constant `A`,
plus one.  Proved sufficient (for non-negative UTXO values) below. -/
def loopFuel (btcUtxos : List Utxo) (A : Int) : Nat :=
  (sumSats (eligibleList btcUtxos false) - A).toNat + 1

/-- The finalization tail of `addBtcAndFees` (lines 324–345): add the
selected UTXOs as real inputs, compute the change; negative change
throws; change above the dust threshold becomes a change output to the
payment address; positive sub-dust change is discarded into the fee;
record `txFee = discardedSats + currentFee`. -/
def finalizeBtcFees (ctx : Ctx) (st : TxState) (selectedUtxos : List Utxo)
    (targetBtcAmount currentFee : Int) : Except Err TxState :=
  let st := selectedUtxos.foldl (addInput ctx) st
  let changeBtcAmount := sumSats selectedUtxos - targetBtcAmount
  if changeBtcAmount < 0 then .error .insufficientUtxoFinal
  else if changeBtcAmount > UTXO_DUST then
    .ok { addOutput ctx st ctx.paymentAddress changeBtcAmount with txFee := currentFee }
  else if changeBtcAmount > 0 then
    .ok { st with txFee := changeBtcAmount + currentFee }
  else .ok { st with txFee := currentFee }

/-- `Transaction.addBtcAndFees` (lines 240–346): push the change-output
placeholder type, run the fee loop, restore the input-type list, pop the
placeholder if it survived, then finalize inputs/change/fee. -/
def addBtcAndFees (ctx : Ctx)
    (oracle : Nat → List AddressType → List AddressType → Int)
    (st : TxState) (btcUtxos : List Utxo) (btcAmount : Int) : Except Err TxState :=
  let paymentAddressType := ctx.getAddressType ctx.paymentAddress
  let A := btcAmount + st.additionalDustNeeded - st.userInputUtxoDusts
  let st := { st with outputAddressTypes := st.outputAddressTypes ++ [paymentAddressType] }
  let inputAddressTypesClone := st.inputAddressTypes
  match feeLoopGo oracle btcUtxos A inputAddressTypesClone paymentAddressType
      (loopFuel btcUtxos A) 0
      { st := st, changePlaceholderActive := true, selected := [], target := 0, callIdx := 0 } with
  | .error e => .error e
  | .ok (ls, currentFee) =>
    let st := { ls.st with inputAddressTypes := inputAddressTypesClone }
    let st :=
      if ls.changePlaceholderActive then
        { st with outputAddressTypes := st.outputAddressTypes.dropLast }
      else st
    finalizeBtcFees ctx st ls.selected ls.target currentFee

/-- `Transaction.build` (lines 875–941): resolve the involved UTXOs,
apply the intention-supplied pool UTXO overrides, run the ledger, emit
the outputs, and fund the user's net BTC requirement plus fees.  The
trailing txid computation over the cloned unsigned transaction is
external PSBT serialization and is not modelled. -/
def build (ctx : Ctx)
    (oracle : Nat → List AddressType → List AddressType → Int)
    (fetchBtc : String → Bool → Except Unit (List Utxo))
    (fetchRune : String → String → Except Unit (List Utxo))
    (intentions : List Intention) : Except Err TxState :=
  let au := getInvolvedAddressUtxos ctx intentions fetchBtc fetchRune
  let au := resetPoolUtxos au intentions
  match addInputsAndCalculateOutputs ctx intentions au TxState.init with
  | .error e => .error e
  | .ok p =>
    let q := addOutputs ctx p.1 p.2
    let userBtcUtxos := (Rec.get? au.btc ctx.paymentAddress).getD []
    let userOutputBtcAmount :=
      (((Rec.get? q.2 ctx.paymentAddress).bind (fun cm => Rec.get? cm BITCOIN_ID))).getD 0
    addBtcAndFees ctx oracle q.1 userBtcUtxos
      (if userOutputBtcAmount < 0 then -userOutputBtcAmount else 0)

end Ree

namespace Ree

/-- Context of the concrete scenarios: user rune address "user", payment
address "pay"; the external classifier maps every address to P2WPKH (only
the type lists consume it). -/
def exCtx : Ctx :=
  { address := "user", paymentAddress := "pay", mergeSelfRuneBtcOutputs := false,
    getAddressType := fun _ => .P2WPKH }

/-- The payment address's funding UTXO of the scenarios (120000 sats). -/
def payUtxo : Utxo :=
  { txid := "u1", vout := 0, satoshis := 120000, runes := [], address := "pay" }

/-- First pool UTXO of the rune-swap scenario: 30000 sats carrying 10000
of rune 840000:3. -/
def richUtxo1 : Utxo :=
  { txid := "r1", vout := 0, satoshis := 30000, runes := [⟨"840000:3", 10000⟩],
    address := "rich" }

/-- Second pool UTXO of the rune-swap scenario: 10000 sats carrying 5000
of rune 840000:3. -/
def richUtxo2 : Utxo :=
  { txid := "r2", vout := 0, satoshis := 10000, runes := [⟨"840000:3", 5000⟩],
    address := "rich" }

/-- BTC UTXO fetcher of the rune-swap scenario. -/
def fetchBtcSwap : String → Bool → Except Unit (List Utxo) := fun a _ =>
  if a = "pay" then .ok [payUtxo]
  else if a = "rich" then .ok [richUtxo1, richUtxo2]
  else .ok []

/-- Rune UTXO fetcher of the rune-swap scenario. -/
def fetchRuneSwap : String → String → Except Unit (List Utxo) := fun a rid =>
  if a = "rich" ∧ rid = "840000:3" then .ok [richUtxo1, richUtxo2] else .ok []

/-- Constant fee estimator (1000 sats), as in the repository tests. -/
def oracle1000 : Nat → List AddressType → List AddressType → Int := fun _ _ _ => 1000

/-- The rune-swap intention: 12000 of rune 840000:3 from the pool "rich"
to the user, an equal-value (100 sats) BTC leg from the user to the pool,
both legs listed explicitly as in the repository's swap test. -/
def swapIntention : Intention :=
  { poolAddress := "rich"
    inputCoins := [⟨⟨"0:0", 100⟩, "pay"⟩, ⟨⟨"840000:3", 12000⟩, "rich"⟩]
    outputCoins := [⟨⟨"840000:3", 12000⟩, "user"⟩, ⟨⟨"0:0", 100⟩, "rich"⟩]
    poolUtxos := none }

/-- The rune-swap build. -/
def buildSwap : Except Err TxState :=
  build exCtx oracle1000 fetchBtcSwap fetchRuneSwap [swapIntention]

/-- A plain pool UTXO of 50000 sats with no runes. -/
def poolUtxo50k : Utxo :=
  { txid := "p1", vout := 0, satoshis := 50000, runes := [], address := "pool" }

/-- Fetcher giving the payment address its 120000-sat UTXO and the pool
"pool" its 50000-sat UTXO. -/
def fetchBtcPool : String → Bool → Except Unit (List Utxo) := fun a _ =>
  if a = "pay" then .ok [payUtxo]
  else if a = "pool" then .ok [poolUtxo50k]
  else .ok []

/-- Rune fetcher returning nothing. -/
def fetchRuneNone : String → String → Except Unit (List Utxo) := fun _ _ => .ok []

/-- Intention sending 100 sats from the pool to the user's rune address
(a sub-dust BTC payout). -/
def smallSendIntention : Intention :=
  { poolAddress := "pool", inputCoins := []
    outputCoins := [⟨⟨"0:0", 100⟩, "user"⟩], poolUtxos := none }

/-- Build of the sub-dust payout scenario. -/
def buildSmallSend : Except Err TxState :=
  build exCtx oracle1000 fetchBtcPool fetchRuneNone [smallSendIntention]

/-- Two payment UTXOs of 1000 and 600 sats for the drifting-type-list
scenario. -/
def payU1000 : Utxo :=
  { txid := "a1", vout := 0, satoshis := 1000, runes := [], address := "pay" }

/-- Second payment UTXO (600 sats). -/
def payU600 : Utxo :=
  { txid := "b1", vout := 0, satoshis := 600, runes := [], address := "pay" }

/-- Fetcher for the drifting-type-list scenario. -/
def fetchBtcDrift : String → Bool → Except Unit (List Utxo) := fun a _ =>
  if a = "pay" then .ok [payU1000, payU600] else .ok []

/-- Fee estimator answering 100 on the first call and 200 afterwards. -/
def oracleDrift : Nat → List AddressType → List AddressType → Int := fun i _ _ =>
  if i = 0 then 100 else 200

/-- Deposit intention of 900 sats from the payment address to the pool. -/
def depositIntention : Intention :=
  { poolAddress := "pool"
    inputCoins := [⟨⟨"0:0", 900⟩, "pay"⟩]
    outputCoins := [⟨⟨"0:0", 900⟩, "pool"⟩], poolUtxos := none }

/-- Build of the drifting-type-list scenario: two loop iterations each
see sub-dust change and each pop an output type. -/
def buildDrift : Except Err TxState :=
  build exCtx oracleDrift fetchBtcDrift fetchRuneNone [depositIntention]

/-- Fee estimator that keeps strictly increasing for 12 calls (1, 2, …,
12) and then stays at 12. -/
def oracleSlow : Nat → List AddressType → List AddressType → Int := fun i _ _ =>
  if i < 12 then (i : Int) + 1 else 12

/-- A single large funding UTXO for the slow-convergence scenario. -/
def bigUtxo : Utxo :=
  { txid := "c1", vout := 0, satoshis := 100000, runes := [], address := "pay" }

/-- The fee loop of the slow-convergence scenario, exactly as
`addBtcAndFees` invokes it for `btcAmount = 1000` on a fresh state whose
output-type list already holds the change placeholder. -/
def slowLoop : Except Err (LoopSt × Int) :=
  feeLoopGo oracleSlow [bigUtxo] 1000 [] .P2WPKH (loopFuel [bigUtxo] 1000) 0
    { st := { TxState.init with outputAddressTypes := [.P2WPKH] },
      changePlaceholderActive := true, selected := [], target := 0, callIdx := 0 }

/-- Withdraw intention listing the pool-sourced BTC leg explicitly:
100000 sats from the pool (which only holds 50000) to the payment
address. -/
def overdrawExplicit : Intention :=
  { poolAddress := "pool"
    inputCoins := [⟨⟨"0:0", 100000⟩, "pool"⟩]
    outputCoins := [⟨⟨"0:0", 100000⟩, "pay"⟩], poolUtxos := none }

/-- Build of the explicit pool-overdraft scenario. -/
def buildOverdrawExplicit : Except Err TxState :=
  build exCtx oracle1000 fetchBtcPool fetchRuneNone [overdrawExplicit]

/-- The same overdraft written minimally (no explicit pool-sourced input
coin), which makes the symmetrization re-create the pool debit. -/
def overdrawMinimal : Intention :=
  { poolAddress := "pool", inputCoins := []
    outputCoins := [⟨⟨"0:0", 100000⟩, "pay"⟩], poolUtxos := none }

/-- Build of the minimal pool-overdraft scenario. -/
def buildOverdrawMinimal : Except Err TxState :=
  build exCtx oracle1000 fetchBtcPool fetchRuneNone [overdrawMinimal]

end Ree

namespace Ree

namespace Rec

theorem get?_set_self {α : Type} (r : Rec α) (k : String) (v : α) :
    get? (set r k v) k = some v := by
  induction r with
  | nil => simp [set, get?]
  | cons hd t ih =>
    obtain ⟨k0, v0⟩ := hd
    by_cases hk : k0 = k
    · subst hk; simp [set, get?]
    · simp [set, hk, get?, ih]

theorem get?_set_ne {α : Type} (r : Rec α) (k k2 : String) (v : α) (h : k ≠ k2) :
    get? (set r k v) k2 = get? r k2 := by
  induction r with
  | nil => simp [set, get?, h]
  | cons hd t ih =>
    obtain ⟨k0, v0⟩ := hd
    by_cases hk : k0 = k
    · subst hk; simp [set, get?, h, ih]
    · simp [set, hk, get?, ih]

theorem get?_eq_none_iff {α : Type} (r : Rec α) (k : String) :
    get? r k = none ↔ k ∉ keys r := by
  induction r with
  | nil => simp [get?, keys]
  | cons hd t ih =>
    obtain ⟨k0, v0⟩ := hd
    by_cases hk : k0 = k
    · subst hk; simp [get?, keys]
    · simp [get?, hk, keys, ih, Ne.symm hk]

theorem keys_set_of_mem {α : Type} (r : Rec α) (k : String) (v : α)
    (h : k ∈ keys r) : keys (set r k v) = keys r := by
  induction r with
  | nil => simp [keys] at h
  | cons hd t ih =>
    obtain ⟨k0, v0⟩ := hd
    by_cases hk : k0 = k
    · subst hk; simp [set, keys]
    · have ht : k ∈ keys t := by simpa [keys, Ne.symm hk] using h
      simp only [set, if_neg hk, keys, List.map_cons]
      rw [show List.map Prod.fst (set t k v) = keys (set t k v) from rfl, ih ht]
      rfl

theorem keys_update {α : Type} (r : Rec α) (k : String) (f : α → α) :
    keys (update r k f) = keys r := by
  induction r with
  | nil => simp [update]
  | cons hd t ih =>
    obtain ⟨k0, v0⟩ := hd
    by_cases hk : k0 = k
    · subst hk; simp [update, keys]
    · simp only [update, if_neg hk, keys, List.map_cons]
      rw [show List.map Prod.fst (update t k f) = keys (update t k f) from rfl, ih]
      rfl

theorem get?_update_ne {α : Type} (r : Rec α) (k k2 : String) (f : α → α) (h : k ≠ k2) :
    get? (update r k f) k2 = get? r k2 := by
  induction r with
  | nil => simp [update]
  | cons hd t ih =>
    obtain ⟨k0, v0⟩ := hd
    by_cases hk : k0 = k
    · subst hk; simp [update, get?, h, ih]
    · simp [update, hk, get?, ih]

end Rec

theorem foldl_invariant {α β : Type} (P : β → Prop) (f : β → α → β)
    (hf : ∀ b a, P b → P (f b a)) :
    ∀ (l : List α) (b : β), P b → P (l.foldl f b)
  | [], _, hb => hb
  | a :: l, b, hb => foldl_invariant P f hf l (f b a) (hf b a hb)

theorem sumSats_go (l : List Utxo) :
    ∀ t : Int, l.foldl (fun a u => a + u.satoshis) t = t + sumSats l := by
  induction l with
  | nil => intro t; simp [sumSats]
  | cons u rest ih =>
    intro t
    simp only [sumSats, List.foldl_cons] at *
    rw [ih (t + u.satoshis), ih (0 + u.satoshis)]
    ring

theorem sumSats_cons (u : Utxo) (l : List Utxo) :
    sumSats (u :: l) = u.satoshis + sumSats l := by
  simp only [sumSats, List.foldl_cons]
  rw [sumSats_go]
  simp [sumSats]

theorem sumSats_nonneg (l : List Utxo) (h : ∀ u ∈ l, 0 ≤ u.satoshis) :
    0 ≤ sumSats l := by
  induction l with
  | nil => simp [sumSats]
  | cons u rest ih =>
    rw [sumSats_cons]
    have := h u (by simp)
    have := ih (fun x hx => h x (by simp [hx]))
    omega

end Ree

namespace Ree

theorem collectBtc_spec (amt : Int) (b : Bool) :
    ∀ (l : List Utxo) (total : Int) (acc : List Utxo),
      (∀ u ∈ l, 0 ≤ u.satoshis) → total < amt →
      collectBtc amt b l total acc =
        (if total + sumSats (eligibleList l b) < amt then
          .error (.insufficientBtc amt (total + sumSats (eligibleList l b)))
        else .ok (acc.reverse ++ greedyTake (amt - total) (eligibleList l b))) := by
  intro l
  induction l with
  | nil =>
    intro total acc _ hlt
    simp [collectBtc, eligibleList, sumSats, greedyTake, hlt]
  | cons u rest ih =>
    intro total acc hnn hlt
    have hnnr : ∀ x ∈ rest, 0 ≤ x.satoshis := fun x hx => hnn x (by simp [hx])
    have hnnu : 0 ≤ u.satoshis := hnn u (by simp)
    by_cases hskip : u.runes ≠ [] ∧ ¬b = true
    · have helig : (fun u : Utxo => u.runes.isEmpty || b) u = false := by
        obtain ⟨h1, h2⟩ := hskip
        simp [List.isEmpty_iff, h1, Bool.eq_false_iff.2 h2]
      have : eligibleList (u :: rest) b = eligibleList rest b := by
        simp [eligibleList, List.filter_cons_of_neg, helig]
      rw [this]
      show collectBtc amt b (u :: rest) total acc = _
      unfold collectBtc
      rw [if_pos hskip]
      exact ih total acc hnnr hlt
    · have helig : (fun u : Utxo => u.runes.isEmpty || b) u = true := by
        rcases Decidable.not_and_iff_or_not.1 hskip with h1 | h2
        · simp [List.isEmpty_iff, Decidable.not_not.1 h1]
        · simp [Decidable.not_not.1 h2]
      have helig2 : eligibleList (u :: rest) b = u :: eligibleList rest b := by
        simp [eligibleList, List.filter_cons_of_pos, helig]
      rw [helig2, sumSats_cons]
      show collectBtc amt b (u :: rest) total acc = _
      unfold collectBtc
      rw [if_neg hskip]
      by_cases hge : total + u.satoshis ≥ amt
      · rw [if_pos hge]
        have hsum : 0 ≤ sumSats (eligibleList rest b) := by
          apply sumSats_nonneg
          intro x hx
          exact hnnr x (List.mem_of_mem_filter hx)
        rw [if_neg (by omega)]
        have : greedyTake (amt - total) (u :: eligibleList rest b) = [u] := by
          unfold greedyTake
          rw [if_pos (by omega)]
        rw [this]
        simp
      · rw [if_neg hge]
        rw [ih (total + u.satoshis) (u :: acc) hnnr (by omega)]
        have harith : total + u.satoshis + sumSats (eligibleList rest b) =
            total + (u.satoshis + sumSats (eligibleList rest b)) := by ring
        rw [harith]
        by_cases hc : total + (u.satoshis + sumSats (eligibleList rest b)) < amt
        · rw [if_pos hc, if_pos hc]
        · rw [if_neg hc, if_neg hc]
          have : greedyTake (amt - total) (u :: eligibleList rest b) =
              u :: greedyTake (amt - total - u.satoshis) (eligibleList rest b) := by
            simp only [greedyTake]
            rw [if_neg (by omega)]
          rw [this]
          have : amt - (total + u.satoshis) = amt - total - u.satoshis := by ring
          rw [this]
          simp

theorem collectBtc_error_shape (amt : Int) (b : Bool) :
    ∀ (l : List Utxo) (total : Int) (acc : List Utxo) (e : Err),
      collectBtc amt b l total acc = .error e → ∃ n g, e = .insufficientBtc n g := by
  intro l
  induction l with
  | nil =>
    intro total acc e h
    unfold collectBtc at h
    by_cases hc : total < amt
    · rw [if_pos hc] at h
      exact ⟨amt, total, by cases h; rfl⟩
    · rw [if_neg hc] at h
      cases h
  | cons u rest ih =>
    intro total acc e h
    unfold collectBtc at h
    by_cases hskip : u.runes ≠ [] ∧ ¬b = true
    · rw [if_pos hskip] at h
      exact ih total acc e h
    · rw [if_neg hskip] at h
      by_cases hge : total + u.satoshis ≥ amt
      · rw [if_pos hge] at h
        cases h
      · rw [if_neg hge] at h
        exact ih (total + u.satoshis) (u :: acc) e h

theorem selectBtcUtxos_error_shape (l : List Utxo) (amt : Int) (b : Bool) (e : Err)
    (h : selectBtcUtxos l amt b = .error e) : ∃ n g, e = .insufficientBtc n g := by
  unfold selectBtcUtxos at h
  by_cases hc : amt ≤ 0
  · rw [if_pos hc] at h; cases h
  · rw [if_neg hc] at h
    exact collectBtc_error_shape amt b l 0 [] e h

theorem selectBtcUtxos_ok_target_le (l : List Utxo) (amt : Int) (b : Bool)
    (sel : List Utxo) (hnn : ∀ u ∈ l, 0 ≤ u.satoshis) (hpos : 0 < amt)
    (hok : selectBtcUtxos l amt b = .ok sel) :
    amt ≤ sumSats (eligibleList l b) := by
  unfold selectBtcUtxos at hok
  rw [if_neg (by omega)] at hok
  rw [collectBtc_spec amt b l 0 [] hnn (by omega)] at hok
  by_cases hc : 0 + sumSats (eligibleList l b) < amt
  · rw [if_pos hc] at hok; cases hok
  · omega

end Ree

namespace Ree

theorem finalizeBtcFees_ne_fuelExhausted (ctx : Ctx) (st : TxState)
    (sel : List Utxo) (tgt cf : Int) :
    finalizeBtcFees ctx st sel tgt cf ≠ .error .fuelExhausted := by
  unfold finalizeBtcFees
  by_cases h : sumSats sel - tgt < 0
  · simp [h]
  · simp only [h, if_false]
    by_cases h2 : sumSats sel - tgt > UTXO_DUST
    · simp [h2]
    · by_cases h3 : sumSats sel - tgt > 0
      · simp [h2, h3]
      · simp [h2, h3]

theorem feeLoopGo_fuel_sufficient
    (oracle : Nat → List AddressType → List AddressType → Int)
    (cands : List Utxo) (A : Int) (clone : List AddressType) (pt : AddressType)
    (hnn : ∀ u ∈ cands, 0 ≤ u.satoshis) :
    ∀ (fuel : Nat) (lastFee : Int) (ls : LoopSt),
      0 ≤ lastFee →
      (sumSats (eligibleList cands false) - A - lastFee).toNat + 1 ≤ fuel →
      feeLoopGo oracle cands A clone pt fuel lastFee ls ≠ .error .fuelExhausted := by
  intro fuel
  induction fuel with
  | zero =>
    intro lastFee ls _ hf
    omega
  | succ n ih =>
    intro lastFee ls hl hf
    simp only [feeLoopGo]
    split
    · next hcond =>
      split
      · next e heq =>
        intro hcontra
        injection hcontra with h1
        obtain ⟨n1, g1, he⟩ := selectBtcUtxos_error_shape _ _ _ _ heq
        rw [h1] at he
        cases he
      · next sel heq =>
        split
        · simp
        · have hle : A + oracle ls.callIdx ls.st.inputAddressTypes ls.st.outputAddressTypes ≤
              sumSats (eligibleList cands false) :=
            selectBtcUtxos_ok_target_le cands _ false sel hnn (by omega) heq
        -- continue below
          apply ih
          · omega
          · omega
    · simp

/-- C7 (amended): the fee/funding loop of `addBtcAndFees` has no
iteration cap and no FeeDidNotConverge error in the source; instead, for
every finite candidate UTXO list (with non-negative values) and every
sequence of fee-estimator responses it terminates.  In the fuel encoding:
`addBtcAndFees` runs the loop with
`loopFuel = (eligible total − loop constant) + 1` fuel, and the
distinguished fuel-exhaustion marker is never reached, because each
continuing iteration strictly increases the fee while a successful
selection bounds the fee by the eligible total (an unaffordable fee makes
the selector throw instead). -/
theorem addBtcAndFees_loop_terminates (ctx : Ctx)
    (oracle : Nat → List AddressType → List AddressType → Int)
    (st : TxState) (cands : List Utxo) (btcAmount : Int)
    (hnn : ∀ u ∈ cands, 0 ≤ u.satoshis) :
    addBtcAndFees ctx oracle st cands btcAmount ≠ .error .fuelExhausted := by
  unfold addBtcAndFees
  dsimp only
  split
  · next e heq =>
    intro hcontra
    injection hcontra with h1
    rw [h1] at heq
    exact feeLoopGo_fuel_sufficient oracle cands _ _ _ hnn _ 0 _ (le_refl 0)
      (by unfold loopFuel; omega) heq
  · next p heq =>
    exact finalizeBtcFees_ne_fuelExhausted _ _ _ _ _

end Ree

namespace Ree

theorem ensureKey_keys_nodup (m : Rec NeedEntry) (k : String)
    (h : (Rec.keys m).Nodup) : (Rec.keys (ensureKey m k)).Nodup := by
  unfold ensureKey
  by_cases hk : (Rec.get? m k).isSome
  · simp [hk, h]
  · rw [if_neg hk]
    have hnot : k ∉ Rec.keys m := by
      rw [← Rec.get?_eq_none_iff]
      exact Option.not_isSome_iff_eq_none.1 hk
    have : Rec.keys (m ++ [(k, (⟨false, []⟩ : NeedEntry))]) = Rec.keys m ++ [k] := by
      simp [Rec.keys]
    rw [this]
    refine List.Nodup.append h (List.nodup_singleton _) ?_
    intro a ha hb
    simp at hb
    subst hb
    exact hnot ha

theorem needTouch_keys_nodup (m : Rec NeedEntry) (addr : String)
    (f : NeedEntry → NeedEntry) (h : (Rec.keys m).Nodup) :
    (Rec.keys (needTouch m addr f)).Nodup := by
  unfold needTouch
  dsimp only
  rw [Rec.keys_update]
  exact ensureKey_keys_nodup m (jsTrim addr) h

theorem needMapOf_keys_nodup (ctx : Ctx) (its : List Intention) :
    (Rec.keys (needMapOf ctx its)).Nodup := by
  unfold needMapOf
  apply foldl_invariant (fun m => (Rec.keys m).Nodup)
  · intro m it hm
    dsimp only
    apply foldl_invariant (fun m => (Rec.keys m).Nodup)
    · intro m2 cid hm2
      exact needTouch_keys_nodup _ _ _ hm2
    · apply ensureKey_keys_nodup
      apply foldl_invariant (fun m => (Rec.keys m).Nodup)
      · intro m2 oc hm2
        exact needTouch_keys_nodup _ _ _ hm2
      · apply foldl_invariant (fun m => (Rec.keys m).Nodup)
        · intro m2 ic hm2
          exact needTouch_keys_nodup _ _ _ hm2
        · exact hm
  · simp [Rec.keys]

theorem fetchFold_btc_not_mem (fb : String → Bool → Except Unit (List Utxo))
    (fr : String → String → Except Unit (List Utxo)) (pools : List String) :
    ∀ (es : Rec NeedEntry) (au : AddressUtxos) (addr : String),
      addr ∉ Rec.keys es →
      Rec.get? (es.foldl (fetchStep fb fr pools) au).btc addr = Rec.get? au.btc addr := by
  intro es
  induction es with
  | nil => intro au addr _; rfl
  | cons e rest ih =>
    intro au addr hmem
    have h0 : e.1 ≠ addr := by
      intro hc
      exact hmem (by simp [Rec.keys, hc])
    have h1 : addr ∉ Rec.keys rest := by
      intro hc
      exact hmem (by simp [Rec.keys] at hc ⊢; exact Or.inr hc)
    rw [List.foldl_cons, ih _ _ h1]
    unfold fetchStep
    dsimp only
    by_cases hrn : e.2.runeIds ≠ [] <;> by_cases hb : e.2.needBtc <;>
      simp [hrn, hb, Rec.get?_set_ne _ _ _ _ h0]

theorem fetchFold_rune_not_mem (fb : String → Bool → Except Unit (List Utxo))
    (fr : String → String → Except Unit (List Utxo)) (pools : List String) :
    ∀ (es : Rec NeedEntry) (au : AddressUtxos) (addr : String),
      addr ∉ Rec.keys es →
      Rec.get? (es.foldl (fetchStep fb fr pools) au).rune addr = Rec.get? au.rune addr := by
  intro es
  induction es with
  | nil => intro au addr _; rfl
  | cons e rest ih =>
    intro au addr hmem
    have h0 : e.1 ≠ addr := by
      intro hc
      exact hmem (by simp [Rec.keys, hc])
    have h1 : addr ∉ Rec.keys rest := by
      intro hc
      exact hmem (by simp [Rec.keys] at hc ⊢; exact Or.inr hc)
    rw [List.foldl_cons, ih _ _ h1]
    unfold fetchStep
    dsimp only
    by_cases hrn : e.2.runeIds ≠ [] <;> by_cases hb : e.2.needBtc <;>
      simp [hrn, hb, Rec.get?_set_ne _ _ _ _ h0]

theorem fetchFold_btc_mem (fb : String → Bool → Except Unit (List Utxo))
    (fr : String → String → Except Unit (List Utxo)) (pools : List String) :
    ∀ (es : Rec NeedEntry) (au : AddressUtxos) (addr : String) (ne : NeedEntry),
      (addr, ne) ∈ es → (Rec.keys es).Nodup → ne.needBtc = true →
      Rec.get? (es.foldl (fetchStep fb fr pools) au).btc addr =
        some (catchList (fb addr (!(pools.contains addr)))) := by
  intro es
  induction es with
  | nil => intro au addr ne h; cases h
  | cons e rest ih =>
    intro au addr ne hmem hnd hb
    have hnd2 : (Rec.keys rest).Nodup ∧ e.1 ∉ Rec.keys rest := by
      constructor
      · exact (List.nodup_cons.1 hnd).2
      · exact (List.nodup_cons.1 hnd).1
    rcases List.mem_cons.1 hmem with heq | hmem2
    · have he1 : e.1 = addr := by rw [← heq]
      have he2 : e.2 = ne := by rw [← heq]
      have haddr : addr ∉ Rec.keys rest := he1 ▸ hnd2.2
      rw [List.foldl_cons, fetchFold_btc_not_mem fb fr pools rest _ addr haddr]
      unfold fetchStep
      dsimp only
      rw [he1, he2]
      by_cases hrn : ne.runeIds ≠ [] <;> simp [hrn, hb, Rec.get?_set_self]
    · rw [List.foldl_cons]
      exact ih _ addr ne hmem2 hnd2.1 hb

theorem runeInnerFold_get (fr : String → String → Except Unit (List Utxo)) (addr : String) :
    ∀ (rids : List String) (init : Rec (List Utxo)) (rid : String),
      rid ∈ rids →
      Rec.get? (rids.foldl (fun rm r => Rec.set rm r (catchList (fr addr r))) init) rid =
        some (catchList (fr addr rid)) := by
  intro rids
  induction rids with
  | nil => intro init rid h; cases h
  | cons r rest ih =>
    intro init rid hmem
    by_cases hr : rid ∈ rest
    · rw [List.foldl_cons]
      exact ih _ rid hr
    · have hrr : r = rid := by
        rcases List.mem_cons.1 hmem with h | h
        · exact h.symm
        · exact absurd h hr
      rw [List.foldl_cons]
      have hpres : ∀ (l : List String) (m : Rec (List Utxo)), rid ∉ l →
          Rec.get? (l.foldl (fun rm x => Rec.set rm x (catchList (fr addr x))) m) rid =
            Rec.get? m rid := by
        intro l
        induction l with
        | nil => intro m _; rfl
        | cons x xs ihx =>
          intro m hx
          rw [List.foldl_cons, ihx _ (fun hc => hx (by simp [hc]))]
          exact Rec.get?_set_ne _ _ _ _ (fun hc => hx (by simp [hc]))
      rw [hpres rest _ hr, hrr, Rec.get?_set_self]

theorem fetchFold_rune_mem (fb : String → Bool → Except Unit (List Utxo))
    (fr : String → String → Except Unit (List Utxo)) (pools : List String) :
    ∀ (es : Rec NeedEntry) (au : AddressUtxos) (addr : String) (ne : NeedEntry) (rid : String),
      (addr, ne) ∈ es → (Rec.keys es).Nodup → rid ∈ ne.runeIds →
      ∃ rm, Rec.get? (es.foldl (fetchStep fb fr pools) au).rune addr = some rm ∧
        Rec.get? rm rid = some (catchList (fr addr rid)) := by
  intro es
  induction es with
  | nil => intro au addr ne rid h; cases h
  | cons e rest ih =>
    intro au addr ne rid hmem hnd hrid
    have hnd2 : (Rec.keys rest).Nodup ∧ e.1 ∉ Rec.keys rest := by
      exact ⟨(List.nodup_cons.1 hnd).2, (List.nodup_cons.1 hnd).1⟩
    rcases List.mem_cons.1 hmem with heq | hmem2
    · have he1 : e.1 = addr := by rw [← heq]
      have he2 : e.2 = ne := by rw [← heq]
      have haddr : addr ∉ Rec.keys rest := he1 ▸ hnd2.2
      rw [List.foldl_cons, fetchFold_rune_not_mem fb fr pools rest _ addr haddr]
      unfold fetchStep
      dsimp only
      rw [he1, he2]
      have hrn : ne.runeIds ≠ [] := by
        intro hc
        rw [hc] at hrid
        cases hrid
      rw [if_pos hrn]
      dsimp only
      refine ⟨_, Rec.get?_set_self _ _ _, ?_⟩
      exact runeInnerFold_get fr addr ne.runeIds [] rid hrid
    · rw [List.foldl_cons]
      exact ih _ addr ne rid hmem2 hnd2.1 hrid

end Ree

namespace Ree

theorem findExactRune_eq_find (l : List Utxo) (rid : String) (amt : Int) :
    findExactRune l rid amt = l.find? (fun v => isExactRuneMatch v rid amt) := by
  induction l with
  | nil => rfl
  | cons v rest ih =>
    rw [List.find?_cons]
    unfold findExactRune
    by_cases hr : v.runes ≠ []
    · rw [if_pos hr]
      cases hfind : v.runes.find? (fun r => r.id = rid) with
      | none => simp [isExactRuneMatch, hfind, ih]
      | some b =>
        by_cases hamt : b.amount = amt
        · simp [isExactRuneMatch, hfind, hamt]
        · simp [isExactRuneMatch, hfind, hamt, ih]
    · rw [if_neg hr]
      have hre : v.runes = [] := Decidable.not_not.1 hr
      simp [isExactRuneMatch, hre, ih]

/-- Classification of outputs used by the amended dust-floor statement:
an output already present before the call, the data-carrying script
output, or a positively valued address output. -/
def goodOut (base : List PsbtOutput) (o : PsbtOutput) : Prop :=
  o ∈ base ∨ (∃ ed, o = .script ed) ∨ ∃ a v, o = .addr a v ∧ 0 < v

theorem carrierStep_outputs (ctx : Ctx) (p : TxState × NRec) (a : String) :
    ∃ amt : Int, 0 < amt ∧
      (carrierStep ctx p a).1.psbtOutputs = p.1.psbtOutputs ++ [.addr a amt] := by
  unfold carrierStep
  dsimp only
  by_cases hs : ((Rec.get? p.2 a).bind (fun cm => Rec.get? cm BITCOIN_ID)).getD 0 > 0 ∧
      (¬a = ctx.address ∨ ctx.mergeSelfRuneBtcOutputs = true)
  · refine ⟨_, hs.1, ?_⟩
    rw [if_pos hs, if_pos hs]
    simp [addOutput]
  · refine ⟨UTXO_DUST, by decide, ?_⟩
    rw [if_neg hs, if_neg hs]
    simp [addOutput]

theorem emitRuneCarriers_good (ctx : Ctx) (base : List PsbtOutput) :
    ∀ (targets : List String) (p : TxState × NRec),
      (∀ o ∈ p.1.psbtOutputs, goodOut base o) →
      ∀ o ∈ (targets.foldl (carrierStep ctx) p).1.psbtOutputs, goodOut base o := by
  intro targets
  induction targets with
  | nil => intro p h; exact h
  | cons a rest ih =>
    intro p h
    rw [List.foldl_cons]
    apply ih
    obtain ⟨amt, hamt, hout⟩ := carrierStep_outputs ctx p a
    intro o ho
    rw [hout] at ho
    rcases List.mem_append.1 ho with h1 | h2
    · exact h o h1
    · right; right
      exact ⟨a, amt, by simpa using h2, hamt⟩

theorem emitRemainingBtc_good (ctx : Ctx) (base : List PsbtOutput) :
    ∀ (m : NRec) (st : TxState),
      (∀ o ∈ st.psbtOutputs, goodOut base o) →
      ∀ o ∈ (emitRemainingBtc ctx st m).psbtOutputs, goodOut base o := by
  intro m
  induction m with
  | nil => intro st h; exact h
  | cons e rest ih =>
    intro st h
    show ∀ o ∈ (rest.foldl (remainingStep ctx) (remainingStep ctx st e)).psbtOutputs, _
    apply ih
    intro o ho
    unfold remainingStep at ho
    dsimp only at ho
    by_cases hb : (Rec.get? e.2 BITCOIN_ID).getD 0 > 0
    · rw [if_pos hb] at ho
      simp only [addOutput] at ho
      rcases List.mem_append.1 ho with h1 | h2
      · exact h o h1
      · right; right
        exact ⟨e.1, _, by simpa using h2, hb⟩
    · rw [if_neg hb] at ho
      exact h o ho

end Ree

namespace Ree

/-- C1: for the rune-swap fixture (pool "rich" holding exactly two UTXOs
carrying rune 840000:3 with amounts 10000 and 5000, one intention moving
12000 of the rune from the pool to the user with an equal-value 100-sat
BTC leg from the user to the pool), `build()` emits exactly one
data-carrying output, but its Runestone encodes the second edict with the
pool's entire rune balance 15000 — not the 3000 remainder the claim (and
the repository's own swap test) expects.  Evaluating the embedded build
at the fixture: the edict list is
[(840000:3, 12000, output 1), (840000:3, 15000, output 2)]. -/
theorem build_rune_swap_edicts :
    (buildSwap).map (fun s => s.psbtOutputs) =
      .ok [PsbtOutput.script [⟨"840000:3", 12000, 1⟩, ⟨"840000:3", 15000, 2⟩],
        PsbtOutput.addr "user" 546, PsbtOutput.addr "rich" 40100,
        PsbtOutput.addr "pay" 118354] := by rfl

/-- C2: when the funding loop of `addBtcAndFees` ends with selected
payment UTXOs summing to `totalSelected` and last target `tgt`, the
finalization behaves as claimed: change above the 546 dust threshold is
paid back to the payment address in full and the recorded fee equals the
last estimate; positive sub-dust change is discarded into the fee (final
fee = last estimate + discarded change, no change output); negative
change throws. -/
theorem finalizeBtcFees_change_and_fee (ctx : Ctx) (st : TxState)
    (sel : List Utxo) (tgt cf : Int) :
    (UTXO_DUST < sumSats sel - tgt →
      (finalizeBtcFees ctx st sel tgt cf).map (fun s => (s.psbtOutputs, s.txFee)) =
        .ok ((sel.foldl (addInput ctx) st).psbtOutputs ++
          [PsbtOutput.addr ctx.paymentAddress (sumSats sel - tgt)], cf))
    ∧ (0 < sumSats sel - tgt → sumSats sel - tgt ≤ UTXO_DUST →
      (finalizeBtcFees ctx st sel tgt cf).map (fun s => (s.psbtOutputs, s.txFee)) =
        .ok ((sel.foldl (addInput ctx) st).psbtOutputs, (sumSats sel - tgt) + cf))
    ∧ (sumSats sel - tgt < 0 →
      finalizeBtcFees ctx st sel tgt cf = .error .insufficientUtxoFinal) := by
  refine ⟨?_, ?_, ?_⟩
  · intro h
    unfold finalizeBtcFees
    dsimp only
    rw [if_neg (by simp only [UTXO_DUST] at *; omega),
      if_pos (by simp only [UTXO_DUST] at *; omega)]
    simp [addOutput, Except.map]
  · intro h1 h2
    unfold finalizeBtcFees
    dsimp only
    rw [if_neg (by simp only [UTXO_DUST] at *; omega),
      if_neg (by simp only [UTXO_DUST] at *; omega),
      if_pos (by simp only [UTXO_DUST] at *; omega)]
    rfl
  · intro h
    unfold finalizeBtcFees
    dsimp only
    rw [if_pos h]

/-- Witness for C2: the three cases of `finalizeBtcFees_change_and_fee`
at concrete inputs (one 1000-sat selected UTXO; targets 100, 800 and
2000). -/
theorem finalizeBtcFees_change_and_fee_witness :
    ((finalizeBtcFees exCtx TxState.init [payU1000] 100 7).map
        (fun s => (s.psbtOutputs, s.txFee)) =
      .ok (([payU1000].foldl (addInput exCtx) TxState.init).psbtOutputs ++
        [PsbtOutput.addr exCtx.paymentAddress (sumSats [payU1000] - 100)], 7))
    ∧ ((finalizeBtcFees exCtx TxState.init [payU1000] 800 7).map
        (fun s => (s.psbtOutputs, s.txFee)) =
      .ok (([payU1000].foldl (addInput exCtx) TxState.init).psbtOutputs,
        (sumSats [payU1000] - 800) + 7))
    ∧ finalizeBtcFees exCtx TxState.init [payU1000] 2000 7 =
        .error .insufficientUtxoFinal :=
  ⟨(finalizeBtcFees_change_and_fee exCtx TxState.init [payU1000] 100 7).1 (by decide),
   (finalizeBtcFees_change_and_fee exCtx TxState.init [payU1000] 800 7).2.1
     (by decide) (by decide),
   (finalizeBtcFees_change_and_fee exCtx TxState.init [payU1000] 2000 7).2.2 (by decide)⟩

/-- C3 counterexample: a successful `build()` whose first output is a
standalone 100-sat output — strictly between 0 and the 546 dust
threshold — refuting the claimed universal dust floor.  The fixture is an
intention paying 100 sats from a pool (holding one 50000-sat UTXO) to the
user's address. -/
theorem build_sub_dust_output_counterexample :
    (buildSmallSend).map (fun s => s.psbtOutputs) =
      .ok [PsbtOutput.addr "user" 100, PsbtOutput.addr "pool" 49900,
        PsbtOutput.addr "pay" 119000] := by rfl

/-- C3 (amended): the dust floor holds for every output except those that
materialize a computed positive BTC credit.  Precisely: (i) every output
`addOutputs` appends is the data-carrying script output or positively
valued; (ii) each rune-carrier output is exactly UTXO_DUST (546) when no
usable positive BTC credit funds it, and otherwise exactly the address's
computed credit (possibly sub-dust); (iii) each remaining BTC-only output
is exactly the address's computed credit and is emitted only when that
credit is positive; (iv) the change output appended by the fee
finalization always exceeds the 546 dust threshold. -/
theorem dust_floor_amended (ctx : Ctx) (st : TxState) (m : NRec)
    (p : TxState × NRec) (a : String) (stR : TxState) (e : String × Rec Int)
    (sel : List Utxo) (tgt cf : Int) (s2 : TxState) :
    (∀ o ∈ (addOutputs ctx st m).1.psbtOutputs, goodOut st.psbtOutputs o)
    ∧ (carrierStep ctx p a).1.psbtOutputs = p.1.psbtOutputs ++
        [PsbtOutput.addr a
          (if (((Rec.get? p.2 a).bind (fun cm => Rec.get? cm BITCOIN_ID))).getD 0 > 0 ∧
              (¬a = ctx.address ∨ ctx.mergeSelfRuneBtcOutputs = true)
           then (((Rec.get? p.2 a).bind (fun cm => Rec.get? cm BITCOIN_ID))).getD 0
           else UTXO_DUST)]
    ∧ (remainingStep ctx stR e).psbtOutputs = stR.psbtOutputs ++
        (if 0 < (Rec.get? e.2 BITCOIN_ID).getD 0
         then [PsbtOutput.addr e.1 ((Rec.get? e.2 BITCOIN_ID).getD 0)] else [])
    ∧ (finalizeBtcFees ctx st sel tgt cf = .ok s2 →
      ∀ o ∈ s2.psbtOutputs,
        o ∈ (sel.foldl (addInput ctx) st).psbtOutputs ∨
        ∃ v, o = PsbtOutput.addr ctx.paymentAddress v ∧ UTXO_DUST < v) := by
  refine ⟨?ga, ?gc, ?gr, ?gf⟩
  case gc =>
    unfold carrierStep
    dsimp only
    by_cases hs : ((Rec.get? p.2 a).bind (fun cm => Rec.get? cm BITCOIN_ID)).getD 0 > 0 ∧
        (¬a = ctx.address ∨ ctx.mergeSelfRuneBtcOutputs = true)
    · simp only [if_pos hs]
      simp [addOutput]
    · simp only [if_neg hs]
      simp [addOutput]
  case gr =>
    unfold remainingStep
    dsimp only
    by_cases hb : (Rec.get? e.2 BITCOIN_ID).getD 0 > 0
    · simp only [if_pos hb]
      simp [addOutput]
    · simp only [if_neg hb]
      simp [show ¬0 < (Rec.get? e.2 BITCOIN_ID).getD 0 from hb]
  case ga =>
    unfold addOutputs
    dsimp only
    by_cases hrid : runeIdsOf m ≠ []
    · rw [if_pos hrid]
      apply emitRemainingBtc_good
      apply emitRuneCarriers_good
      intro o ho
      unfold addScriptOutput at ho
      dsimp only at ho
      rcases List.mem_append.1 ho with h1 | h2
      · exact Or.inl h1
      · exact Or.inr (Or.inl ⟨_, by simpa using h2⟩)
    · rw [if_neg hrid]
      apply emitRemainingBtc_good
      intro o ho
      exact Or.inl ho
  · intro heq o ho
    unfold finalizeBtcFees at heq
    dsimp only at heq
    by_cases h1 : sumSats sel - tgt < 0
    · rw [if_pos h1] at heq
      cases heq
    · rw [if_neg h1] at heq
      by_cases h2 : sumSats sel - tgt > UTXO_DUST
      · rw [if_pos h2] at heq
        injection heq with heq2
        rw [← heq2] at ho
        simp only [addOutput] at ho
        rcases List.mem_append.1 ho with ha | hb
        · exact Or.inl ha
        · exact Or.inr ⟨sumSats sel - tgt, by simpa using hb, h2⟩
      · rw [if_neg h2] at heq
        by_cases h3 : sumSats sel - tgt > 0
        · rw [if_pos h3] at heq
          injection heq with heq2
          rw [← heq2] at ho
          exact Or.inl ho
        · rw [if_neg h3] at heq
          injection heq with heq2
          rw [← heq2] at ho
          exact Or.inl ho

/-- The finalization state of the dust-floor witness: one 1000-sat input
added, a 900-sat change output, fee 7. -/
def dustWitnessState : TxState :=
  { addOutput exCtx (addInput exCtx TxState.init payU1000) "pay" 900 with txFee := 7 }

/-- Witness for C3 (amended): conjuncts of `dust_floor_amended` applied
at concrete inputs — a receive map paying the user 100 sats, an unfunded
carrier step for "user" on the empty credit map (whose output the
equation pins to exactly UTXO_DUST), and a finalization with 900-sat
change. -/
theorem dust_floor_amended_witness :
    goodOut TxState.init.psbtOutputs (PsbtOutput.addr "user" 100)
    ∧ (carrierStep exCtx (TxState.init, ([] : NRec)) "user").1.psbtOutputs =
        (TxState.init, ([] : NRec)).1.psbtOutputs ++
        [PsbtOutput.addr "user"
          (if (((Rec.get? ([] : NRec) "user").bind
                (fun cm => Rec.get? cm BITCOIN_ID))).getD 0 > 0 ∧
              (¬"user" = exCtx.address ∨ exCtx.mergeSelfRuneBtcOutputs = true)
           then (((Rec.get? ([] : NRec) "user").bind
                (fun cm => Rec.get? cm BITCOIN_ID))).getD 0
           else UTXO_DUST)]
    ∧ (PsbtOutput.addr "pay" 900 ∈
        ([payU1000].foldl (addInput exCtx) TxState.init).psbtOutputs ∨
      ∃ v, PsbtOutput.addr "pay" 900 = PsbtOutput.addr exCtx.paymentAddress v ∧
        UTXO_DUST < v) :=
  ⟨(dust_floor_amended exCtx TxState.init [("user", [(BITCOIN_ID, 100)])]
      (TxState.init, []) "user" TxState.init ("user", [(BITCOIN_ID, 100)])
      [] 0 0 TxState.init).1 (PsbtOutput.addr "user" 100) (by decide),
   (dust_floor_amended exCtx TxState.init [("user", [(BITCOIN_ID, 100)])]
      (TxState.init, []) "user" TxState.init ("user", [(BITCOIN_ID, 100)])
      [] 0 0 TxState.init).2.1,
   (dust_floor_amended exCtx TxState.init [] (TxState.init, []) "user" TxState.init
      ("user", [(BITCOIN_ID, 100)]) [payU1000] 100 7 dustWitnessState).2.2.2
      (by rfl) (PsbtOutput.addr "pay" 900) (by decide)⟩

/-- C4: whenever the candidate list contains a UTXO whose balance entry
for the requested rune id equals the positive target exactly,
`selectRuneUtxos` returns precisely the first such UTXO as a singleton
selection and the accumulation pass never runs. -/
theorem selectRuneUtxos_exact_match_first (l : List Utxo) (rid : String)
    (amt : Int) (u : Utxo) (hpos : 0 < amt)
    (hfirst : l.find? (fun v => isExactRuneMatch v rid amt) = some u) :
    selectRuneUtxos l rid amt = .ok [u] := by
  unfold selectRuneUtxos
  rw [if_neg (by omega), findExactRune_eq_find, hfirst]

/-- Rune UTXO "A" of the C4 witness: 1000 units of rune 840000:3. -/
def runeUtxoA : Utxo :=
  { txid := "A", vout := 0, satoshis := 546, runes := [⟨"840000:3", 1000⟩],
    address := "user" }

/-- Rune UTXO "B" of the C4 witness: 500 units of rune 840000:3. -/
def runeUtxoB : Utxo :=
  { txid := "B", vout := 0, satoshis := 546, runes := [⟨"840000:3", 500⟩],
    address := "user" }

/-- Witness for C4: with rune UTXOs [A:1000, B:500] and a target of
exactly 500 the selector picks [B] alone, never [A, B]. -/
theorem selectRuneUtxos_exact_match_first_witness :
    selectRuneUtxos [runeUtxoA, runeUtxoB] "840000:3" 500 = .ok [runeUtxoB] :=
  selectRuneUtxos_exact_match_first [runeUtxoA, runeUtxoB] "840000:3" 500 runeUtxoB
    (by decide) (by decide)

/-- C5: `selectBtcUtxos` walks the candidates once in order, skipping
rune-bearing UTXOs unless the pool flag is set; a non-positive target
returns the empty selection; it throws the insufficient-funds error
(carrying need and have) exactly when the eligible candidates sum below
the target; otherwise it returns the minimal greedy prefix of the
eligible candidates reaching the target. -/
theorem selectBtcUtxos_greedy_spec (l : List Utxo) (amt : Int) (b : Bool)
    (hnn : ∀ u ∈ l, 0 ≤ u.satoshis) :
    (amt ≤ 0 → selectBtcUtxos l amt b = .ok [])
    ∧ (0 < amt → sumSats (eligibleList l b) < amt →
        selectBtcUtxos l amt b =
          .error (.insufficientBtc amt (sumSats (eligibleList l b))))
    ∧ (0 < amt → amt ≤ sumSats (eligibleList l b) →
        selectBtcUtxos l amt b = .ok (greedyTake amt (eligibleList l b))) := by
  refine ⟨?_, ?_, ?_⟩
  · intro h
    unfold selectBtcUtxos
    rw [if_pos h]
  · intro h1 h2
    unfold selectBtcUtxos
    rw [if_neg (by omega), collectBtc_spec amt b l 0 [] hnn (by omega),
      if_pos (by omega)]
    simp
  · intro h1 h2
    unfold selectBtcUtxos
    rw [if_neg (by omega), collectBtc_spec amt b l 0 [] hnn (by omega),
      if_neg (by omega)]
    simp

/-- Witness for C5: the three cases of `selectBtcUtxos_greedy_spec` on
the candidates [1000-sat plain UTXO, rune-bearing UTXO] with the pool
flag off — target 0 (empty), target 5000 (insufficient: only 1000
eligible), target 1000 (greedy prefix). -/
theorem selectBtcUtxos_greedy_spec_witness :
    selectBtcUtxos [payU1000, richUtxo1] 0 false = .ok []
    ∧ selectBtcUtxos [payU1000, richUtxo1] 5000 false =
        .error (.insufficientBtc 5000 (sumSats (eligibleList [payU1000, richUtxo1] false)))
    ∧ selectBtcUtxos [payU1000, richUtxo1] 1000 false =
        .ok (greedyTake 1000 (eligibleList [payU1000, richUtxo1] false)) :=
  ⟨(selectBtcUtxos_greedy_spec [payU1000, richUtxo1] 0 false (by decide)).1 (by decide),
   (selectBtcUtxos_greedy_spec [payU1000, richUtxo1] 5000 false (by decide)).2.1
     (by decide) (by decide),
   (selectBtcUtxos_greedy_spec [payU1000, richUtxo1] 1000 false (by decide)).2.2
     (by decide) (by decide)⟩

/-- C6: after the drifting-fee build (deposit of 900 sats, payment UTXOs
of 1000 and 600 sats, estimator answering 100 then 200), the PSBT has one
output but the output address-type list is empty: the sub-dust-change
branch of the fee loop popped the type list twice (once for the
placeholder, once for a real output's type), so the parallel lists drift
out of lockstep, refuting the claimed invariant.  The input lists stay in
lockstep (two inputs, two entries). -/
theorem build_type_lists_drift :
    (buildDrift).map (fun s =>
      (s.psbtOutputs.length, s.outputAddressTypes.length,
       s.psbtInputs.length, s.inputAddressTypes.length)) = .ok (1, 0, 2, 2) := by rfl

/-- C7 counterexample: a fee-estimator sequence that increases strictly
for twelve calls makes the loop run thirteen estimator calls — beyond the
claimed cap of about 10 — and the loop still returns successfully with
fee 12: no FeeDidNotConverge / FeeConvergenceFailure error exists in the
code. -/
theorem feeLoop_thirteen_calls_no_error :
    (slowLoop).map (fun r => (r.1.callIdx, r.2)) = .ok (13, 12) := by rfl

/-- Witness for C7 (amended): the termination theorem applied at a
concrete input (one 120000-sat candidate, target 1000). -/
theorem addBtcAndFees_loop_terminates_witness :
    (∀ u ∈ [payUtxo], 0 ≤ u.satoshis)
    ∧ addBtcAndFees exCtx oracle1000 TxState.init [payUtxo] 1000 ≠
        .error .fuelExhausted :=
  ⟨by decide,
   addBtcAndFees_loop_terminates exCtx oracle1000 TxState.init [payUtxo] 1000 (by decide)⟩

/-- C8 counterexample: an intention set that drives the pool's BTC
balance negative (100000 sats withdrawn from a pool holding 50000, with
the pool-sourced leg listed explicitly in inputCoins) builds
successfully — no PoolBalanceViolation, no error of any kind: the
pool-input filter drops the pool leg and the symmetrization does not
re-create it, so the pool's reserves are never even consulted. -/
theorem build_pool_overdraft_succeeds :
    (buildOverdrawExplicit).map (fun s => s.psbtOutputs) =
      .ok [PsbtOutput.addr "pay" 100000, PsbtOutput.addr "pay" 119000] := by rfl

/-- C8 (amended): `build()` performs no pool-balance validation and has
no PoolBalanceViolation error.  An overdraft with the pool-sourced coin
listed explicitly builds successfully; the same overdraft written
minimally is caught only as the generic BTC-selection insufficiency
error carrying need and have but neither the pool address nor the coin
id. -/
theorem build_pool_overdraft_behavior :
    (∃ s, buildOverdrawExplicit = .ok s)
    ∧ buildOverdrawMinimal = .error (.insufficientBtc 100000 50000) :=
  ⟨⟨_, rfl⟩, rfl⟩

/-- C9: for every address in the need map of `getInvolvedAddressUtxos`,
a throwing BTC fetch records the empty list as the address's BTC UTXO
set, and a throwing rune fetch records the empty list under the
address's rune id — the build continues instead of aborting (the
embedding of the fetch phase is total, so no fetch failure can escape
it). -/
theorem fetch_failure_degrades_to_empty (ctx : Ctx) (its : List Intention)
    (fetchBtc : String → Bool → Except Unit (List Utxo))
    (fetchRune : String → String → Except Unit (List Utxo))
    (addr : String) (ne : NeedEntry)
    (hmem : (addr, ne) ∈ needMapOf ctx its) :
    (ne.needBtc = true →
      fetchBtc addr (!((its.map (fun i => i.poolAddress)).contains addr)) = .error () →
      Rec.get? (getInvolvedAddressUtxos ctx its fetchBtc fetchRune).btc addr = some [])
    ∧ (∀ rid ∈ ne.runeIds, fetchRune addr rid = .error () →
      ∃ rm, Rec.get? (getInvolvedAddressUtxos ctx its fetchBtc fetchRune).rune addr =
          some rm ∧ Rec.get? rm rid = some []) := by
  constructor
  · intro hb herr
    unfold getInvolvedAddressUtxos fetchPhase
    rw [fetchFold_btc_mem fetchBtc fetchRune _ _ _ addr ne hmem
      (needMapOf_keys_nodup ctx its) hb]
    rw [herr]
    rfl
  · intro rid hrid herr
    unfold getInvolvedAddressUtxos fetchPhase
    obtain ⟨rm, h1, h2⟩ := fetchFold_rune_mem fetchBtc fetchRune _ _ _ addr ne rid
      hmem (needMapOf_keys_nodup ctx its) hrid
    refine ⟨rm, h1, ?_⟩
    rw [h2, herr]
    rfl

/-- Witness for C9: with every fetch throwing, the user's BTC UTXO set of
the 100-sat payout scenario is recorded as the empty list. -/
theorem fetch_failure_degrades_to_empty_witness :
    Rec.get? (getInvolvedAddressUtxos exCtx [smallSendIntention]
      (fun _ _ => .error ()) (fun _ _ => .error ())).btc "user" = some [] :=
  (fetch_failure_degrades_to_empty exCtx [smallSendIntention]
    (fun _ _ => .error ()) (fun _ _ => .error ()) "user" ⟨true, []⟩ (by decide)).1
    rfl rfl

/-- C10: `addInput` is idempotent on outpoints — adding a UTXO whose
(txid, vout) pair is already among the tracked input UTXOs leaves the
whole builder state (PSBT input list, input address-type list, tracked
UTXO list, user-dust counter) unchanged, so an outpoint appears at most
once among the final inputs. -/
theorem addInput_idempotent_on_duplicate_outpoint (ctx : Ctx) (st : TxState)
    (u : Utxo) (h : ∃ i ∈ st.inputUtxos, i.txid = u.txid ∧ i.vout = u.vout) :
    addInput ctx st u = st := by
  have hc : (st.inputUtxos.any fun i => i.txid = u.txid ∧ i.vout = u.vout) = true := by
    simp only [List.any_eq_true, decide_eq_true_eq]
    exact h
  unfold addInput
  rw [if_pos hc]

/-- Witness for C10: re-adding the already-tracked 120000-sat payment
UTXO leaves the state unchanged. -/
theorem addInput_idempotent_witness :
    addInput exCtx { TxState.init with inputUtxos := [payUtxo] } payUtxo =
      { TxState.init with inputUtxos := [payUtxo] } :=
  addInput_idempotent_on_duplicate_outpoint exCtx
    { TxState.init with inputUtxos := [payUtxo] } payUtxo
    ⟨payUtxo, by decide, rfl, rfl⟩

end Ree
